import Mathlib

/-!
Verification of `pipeplayer.cpp` (pipeplayer): a utility that streams raw PCM
bytes from standard input into a PortAudio output stream through a
single-producer/single-consumer frame ring buffer.

The development shallowly embeds the pure logic of the program:
machine integers become `Nat`/`Int` with explicit `% 2 ^ 64` where the C++
code relies on unsigned wraparound, the staging/drain loop becomes explicit
state passing over a poll-outcome trace, and logging calls become explicit
event lists.  The PortAudio ring buffer (`pa_ringbuffer`) is vendored library
code that is not part of the program source; it is modelled from the
ring-buffer contract of the spec (spec section 4.1).
-/

/-- One doubling step of the bit-smearing loop in `nextPowerOfTwo`
(pipeplayer.cpp line 42): `v |= v >> i`. -/
def smearStep (k x : Nat) : Nat := x ||| x >>> k

/-- The full bit-smearing loop body of `nextPowerOfTwo` (pipeplayer.cpp
lines 40-43) instantiated at a 64-bit unsigned type: the loop runs
`v |= v >> i` for `i = 1, 2, 4, 8, 16, 32`. -/
def bitSmear (m : Nat) : Nat :=
  smearStep 32 (smearStep 16 (smearStep 8 (smearStep 4 (smearStep 2 (smearStep 1 m)))))

/-- `nextPowerOfTwo` from pipeplayer.cpp lines 33-45, instantiated at the
64-bit `unsigned long` used at the call site (line 294).  `--v` and `++v`
wrap modulo `2 ^ 64` on the unsigned type. -/
def nextPowerOfTwo (v : Nat) : Nat :=
  (bitSmear ((v + (2 ^ 64 - 1)) % 2 ^ 64) + 1) % 2 ^ 64

/-- `getIntArg` from pipeplayer.cpp lines 125-135: a parsed integer argument
below zero falls back to the default with a warning; zero and positive
values are accepted unchanged. -/
def getIntArg (parsed defaultArg : Int) : Int :=
  if parsed < 0 then defaultArg else parsed

/-- Ring-buffer element count computed in `main` (pipeplayer.cpp line 294). -/
def ringBufferSize (framesPerBuffer : Nat) : Nat := nextPowerOfTwo framesPerBuffer

theorem smearStep_testBit (m x a : Nat)
    (h : ∀ i, x.testBit i = true ↔ ∃ t, t < a ∧ m.testBit (i + t) = true) :
    ∀ i, (smearStep a x).testBit i = true ↔ ∃ t, t < 2 * a ∧ m.testBit (i + t) = true := by
  intro i
  rw [smearStep, Nat.testBit_or, Nat.testBit_shiftRight, Bool.or_eq_true, h i, h (a + i)]
  constructor
  · rintro (⟨t, ht, hb⟩ | ⟨t, ht, hb⟩)
    · exact ⟨t, by omega, hb⟩
    · exact ⟨a + t, by omega, by rwa [show i + (a + t) = a + i + t by omega]⟩
  · rintro ⟨t, ht, hb⟩
    by_cases hlt : t < a
    · exact Or.inl ⟨t, hlt, hb⟩
    · exact Or.inr ⟨t - a, by omega, by rwa [show a + i + (t - a) = i + t by omega]⟩

theorem bitSmear_testBit (m : Nat) (i : Nat) :
    (bitSmear m).testBit i = true ↔ ∃ t, t < 64 ∧ m.testBit (i + t) = true := by
  have h1 : ∀ j, m.testBit j = true ↔ ∃ t, t < 1 ∧ m.testBit (j + t) = true := by
    intro j
    constructor
    · intro hb
      exact ⟨0, by omega, by simpa using hb⟩
    · rintro ⟨t, ht, hb⟩
      have ht0 : t = 0 := by omega
      rw [ht0] at hb
      simpa using hb
  have h2 := smearStep_testBit m m 1 h1
  have h4 := smearStep_testBit m (smearStep 1 m) 2 h2
  have h8 := smearStep_testBit m (smearStep 2 (smearStep 1 m)) 4 h4
  have h16 := smearStep_testBit m (smearStep 4 (smearStep 2 (smearStep 1 m))) 8 h8
  have h32 := smearStep_testBit m (smearStep 8 (smearStep 4 (smearStep 2 (smearStep 1 m)))) 16 h16
  have h64 := smearStep_testBit m
    (smearStep 16 (smearStep 8 (smearStep 4 (smearStep 2 (smearStep 1 m))))) 32 h32
  exact h64 i

theorem exists_testBit_iff_lt_size (m : Nat) (hm : m < 2 ^ 64) (i : Nat) :
    (∃ t, t < 64 ∧ m.testBit (i + t) = true) ↔ i < m.size := by
  constructor
  · rintro ⟨t, ht, hb⟩
    have hpos : 0 < 2 ^ (i + t) := by positivity
    have hq : m / 2 ^ (i + t) % 2 = 1 := by
      rw [Nat.testBit_to_div_mod] at hb
      exact of_decide_eq_true hb
    have hge : 1 ≤ m / 2 ^ (i + t) := by
      rcases Nat.eq_zero_or_pos (m / 2 ^ (i + t)) with h0 | h0
      · rw [h0] at hq
        simp at hq
      · exact h0
    have hle : 2 ^ (i + t) ≤ m := (Nat.one_le_div_iff hpos).mp hge
    have := Nat.lt_size.mpr hle
    omega
  · intro hi
    have hm0 : m ≠ 0 := by
      intro h0
      rw [h0] at hi
      simp [Nat.size_eq_zero.mpr] at hi
    have hs : 0 < m.size := by
      rcases Nat.eq_zero_or_pos m.size with h0 | h0
      · exact absurd (Nat.size_eq_zero.mp h0) hm0
      · exact h0
    have h1 : 2 ^ (m.size - 1) ≤ m := Nat.lt_size.mp (by omega)
    have h2 : m < 2 ^ m.size := Nat.lt_size_self m
    have hpos : 0 < 2 ^ (m.size - 1) := by positivity
    have hdiv : m / 2 ^ (m.size - 1) = 1 := by
      have hpow : 2 ^ m.size = 2 ^ (m.size - 1) * 2 := by
        rw [← pow_succ]
        congr 1
        omega
      have hlt : m / 2 ^ (m.size - 1) < 2 := Nat.div_lt_of_lt_mul (by rw [← hpow]; exact h2)
      have hge : 1 ≤ m / 2 ^ (m.size - 1) := (Nat.one_le_div_iff hpos).mpr h1
      omega
    have htop : m.testBit (m.size - 1) = true := by
      rw [Nat.testBit_to_div_mod, hdiv]
      decide
    have hsle : m.size ≤ 64 := Nat.size_le.mpr hm
    refine ⟨m.size - 1 - i, by omega, ?_⟩
    rw [show i + (m.size - 1 - i) = m.size - 1 by omega]
    exact htop

theorem bitSmear_eq (m : Nat) (hm : m < 2 ^ 64) : bitSmear m = 2 ^ m.size - 1 := by
  apply Nat.eq_of_testBit_eq
  intro i
  have hchar : (bitSmear m).testBit i = true ↔ i < m.size :=
    (bitSmear_testBit m i).trans (exists_testBit_iff_lt_size m hm i)
  rw [Nat.testBit_two_pow_sub_one]
  by_cases hi : i < m.size
  · rw [hchar.mpr hi]
    simp [hi]
  · have hne : (bitSmear m).testBit i ≠ true := fun h => hi (hchar.mp h)
    have hf : (bitSmear m).testBit i = false := Bool.not_eq_true _ |>.mp hne
    rw [hf]
    simp [hi]

/-- C5: for every requested buffer size r > 0 (all values reachable from the
command line are at most 2^63), `nextPowerOfTwo r` is a power of two and is
the smallest power of two greater than or equal to r; in particular
`nextPowerOfTwo 1 = 1` and `nextPowerOfTwo 370 = 512`. -/
theorem c5_nextPowerOfTwo_correct (r : Nat) (h1 : 0 < r) (h2 : r ≤ 2 ^ 63) :
    (∃ k, nextPowerOfTwo r = 2 ^ k) ∧
    r ≤ nextPowerOfTwo r ∧
    (∀ m k, m = 2 ^ k → r ≤ m → nextPowerOfTwo r ≤ m) ∧
    nextPowerOfTwo 1 = 1 ∧ nextPowerOfTwo 370 = 512 := by
  have hlt : r - 1 < 2 ^ 64 := by
    have h63 : (2:ℕ) ^ 63 < 2 ^ 64 := by norm_num
    omega
  have hv1 : (r + (2 ^ 64 - 1)) % 2 ^ 64 = r - 1 := by
    have hp : (0:ℕ) < 2 ^ 64 := by positivity
    have he : r + (2 ^ 64 - 1) = (r - 1) + 2 ^ 64 := by omega
    rw [he, Nat.add_mod_right, Nat.mod_eq_of_lt hlt]
  have hsize : (r - 1).size ≤ 63 := by
    apply Nat.size_le.mpr
    have h63 : (0:ℕ) < 2 ^ 63 := by positivity
    omega
  have hmain : nextPowerOfTwo r = 2 ^ (r - 1).size := by
    rw [nextPowerOfTwo, hv1, bitSmear_eq (r - 1) hlt]
    have hp : 0 < 2 ^ (r - 1).size := by positivity
    rw [Nat.sub_add_cancel hp]
    apply Nat.mod_eq_of_lt
    calc 2 ^ (r - 1).size ≤ 2 ^ 63 := Nat.pow_le_pow_right (by norm_num) hsize
      _ < 2 ^ 64 := by norm_num
  refine ⟨⟨(r - 1).size, hmain⟩, ?_, ?_, by decide, by decide⟩
  · rw [hmain]
    have := Nat.lt_size_self (r - 1)
    omega
  · intro m k hk hrm
    rw [hmain, hk]
    apply Nat.pow_le_pow_right (by norm_num)
    apply Nat.size_le.mpr
    rw [hk] at hrm
    omega

theorem c5_witness :
    0 < 370 ∧ 370 ≤ 2 ^ 63 ∧ (∃ k, nextPowerOfTwo 370 = 2 ^ k) :=
  ⟨by norm_num, by norm_num,
    (c5_nextPowerOfTwo_correct 370 (by norm_num) (by norm_num)).1⟩

/-- C9: `nextPowerOfTwo 0 = 0`; argument validation (`getIntArg`) accepts a
requested buffer size of 0 (only negative values fall back to the default),
so for r = 0 the power-of-two-capacity guarantee fails and the ring buffer
is sized to zero frames. -/
theorem c9_zero_buffer_size :
    getIntArg 0 370 = 0 ∧ getIntArg (-5) 370 = 370 ∧
    nextPowerOfTwo 0 = 0 ∧ ringBufferSize 0 = 0 ∧ ¬ (∃ k, (0:ℕ) = 2 ^ k) := by
  refine ⟨rfl, rfl, by decide, by decide, ?_⟩
  rintro ⟨k, hk⟩
  have : 0 < 2 ^ k := by positivity
  omega

/-- Modelled from the spec: the PortAudio utility ring buffer
(`pa_ringbuffer`, vendored library code, not part of the program source),
following spec sections 3 and 4.1: a power-of-two `capacity` in frames, a
fixed `frameSize` in bytes, monotonically increasing `writeCursor` and
`readCursor` counts, physical slot index = count bitwise-and
(capacity - 1).  Frames are indivisible byte groups, so storage is held at
frame granularity. -/
structure RB where
  capacity : Nat
  frameSize : Nat
  storage : Nat → List Nat
  writeCursor : Nat
  readCursor : Nat

/-- Modelled from the spec: `readAvailable()` returns
`writeCursor - readCursor`, the buffered frame count (spec section 4.1). -/
def readAvailable (rb : RB) : Nat := rb.writeCursor - rb.readCursor

/-- Modelled from the spec: `writeAvailable()` returns
`capacity - (writeCursor - readCursor)`, the free frame slots
(spec section 4.1). -/
def writeAvailable (rb : RB) : Nat := rb.capacity - (rb.writeCursor - rb.readCursor)

/-- Modelled from the spec: writing one whole frame (`write(frames, 1)`,
spec section 4.1): copies the frame into the slot derived from
`writeCursor` and advances `writeCursor`, never copying more than
`writeAvailable()` (a full buffer makes the write a no-op). -/
def ringWrite1 (rb : RB) (frame : List Nat) : RB :=
  if 0 < writeAvailable rb then
    { rb with
      storage := fun i =>
        if i = rb.writeCursor &&& (rb.capacity - 1) then frame else rb.storage i,
      writeCursor := rb.writeCursor + 1 }
  else rb

/-- Modelled from the spec: `read(dest, maxCount)` (spec section 4.1):
copies up to `maxCount` whole frames out in FIFO order, advancing
`readCursor` by the number copied, never more than `readAvailable()`. -/
def ringReadN : RB → Nat → List (List Nat) × RB
  | rb, 0 => ([], rb)
  | rb, n + 1 =>
    if 0 < readAvailable rb then
      let f := rb.storage (rb.readCursor &&& (rb.capacity - 1))
      let r := ringReadN { rb with readCursor := rb.readCursor + 1 } n
      (f :: r.1, r.2)
    else ([], rb)

/-- The frames currently buffered, in FIFO order: frame `i` sits at
physical slot `(readCursor + i) &&& (capacity - 1)` (spec section 3). -/
def bufferedFrames (rb : RB) : List (List Nat) :=
  (List.range (readAvailable rb)).map
    fun i => rb.storage ((rb.readCursor + i) &&& (rb.capacity - 1))

/-- Sample formats accepted by `getOpts` (pipeplayer.cpp lines 159-167). -/
inductive SampleFormat
  | f32
  | s16
  | s32
  | s24
  | s8
  | u8
deriving DecidableEq

/-- Silence byte selection in `main` (pipeplayer.cpp lines 308-316):
`callbackData` starts zero-filled and the byte is set to `0x80` exactly
when the sample format is `paUInt8`. -/
def silenceByteOf (f : SampleFormat) : Nat := if f = SampleFormat.u8 then 0x80 else 0

/-- `CallbackData` from pipeplayer.cpp lines 47-51: the ring buffer and the
silence byte bundled as the callback context. -/
structure CallbackData where
  rb : RB
  silenceByte : Nat

/-- Log events emitted by the program (the `PRINT` family of macros,
pipeplayer.cpp lines 275-280).  Emission is modelled unconditionally:
verbosity gating belongs to output routing in the logging collaborator per
spec section 6. -/
inductive Ev
  | starved
  | cantGetBytes
  | selectErrorMsg
  | timedOutMsg
  | pipeClosedMsg
  | streamStoppedMsg
deriving DecidableEq

/-- Result of one callback invocation: the bytes written to the output
quantum, the updated context, and the events emitted during the call. -/
structure CallbackRes where
  output : List Nat
  data : CallbackData
  evs : List Ev

/-- `streamCallback` from pipeplayer.cpp lines 53-78: reads
`min(framesPerBuffer, readAvailable)` frames from the ring buffer into the
output, then fills the remaining
`framesPerBuffer * frameSize - framesRead * frameSize` bytes with the
silence byte via `memset`; it performs no logging and keeps no counter. -/
def streamCallback (cd : CallbackData) (framesPerBuffer : Nat) : CallbackRes :=
  let r := ringReadN cd.rb (min framesPerBuffer (readAvailable cd.rb))
  let bytesRead := r.1.length * cd.rb.frameSize
  let bytesLeft := framesPerBuffer * cd.rb.frameSize - bytesRead
  { output := r.1.flatten ++ List.replicate bytesLeft cd.silenceByte,
    data := { rb := r.2, silenceByte := cd.silenceByte },
    evs := [] }

theorem ringReadN_spec (n : Nat) : ∀ rb : RB, n ≤ readAvailable rb →
    ringReadN rb n =
      ((List.range n).map (fun i => rb.storage ((rb.readCursor + i) &&& (rb.capacity - 1))),
        { rb with readCursor := rb.readCursor + n }) := by
  induction n with
  | zero =>
    intro rb h
    simp [ringReadN]
  | succ n ih =>
    intro rb h
    have hpos : 0 < readAvailable rb := by omega
    have hn : n ≤ readAvailable { rb with readCursor := rb.readCursor + 1 } := by
      simp only [readAvailable] at h ⊢
      omega
    rw [ringReadN, if_pos hpos, ih { rb with readCursor := rb.readCursor + 1 } hn]
    simp only [List.range_succ_eq_map, List.map_cons, List.map_map, Prod.mk.injEq,
      List.cons.injEq]
    refine ⟨⟨by simp, ?_⟩, ?_⟩
    · apply List.map_congr_left
      intro a _
      simp only [Function.comp_apply]
      congr 2
      omega
    · congr 1
      omega

theorem streamCallback_output (cd : CallbackData) (Q : Nat) :
    (streamCallback cd Q).output =
      ((bufferedFrames cd.rb).take (min Q (readAvailable cd.rb))).flatten ++
        List.replicate ((Q - min Q (readAvailable cd.rb)) * cd.rb.frameSize) cd.silenceByte ∧
    (streamCallback cd Q).evs = [] := by
  have hn : min Q (readAvailable cd.rb) ≤ readAvailable cd.rb := min_le_right _ _
  have hr := ringReadN_spec (min Q (readAvailable cd.rb)) cd.rb hn
  refine ⟨?_, rfl⟩
  show (ringReadN cd.rb (min Q (readAvailable cd.rb))).1.flatten ++
      List.replicate
        (Q * cd.rb.frameSize -
          (ringReadN cd.rb (min Q (readAvailable cd.rb))).1.length * cd.rb.frameSize)
        cd.silenceByte = _
  rw [hr]
  simp only [List.length_map, List.length_range]
  rw [bufferedFrames, ← List.map_take, List.take_range, min_eq_left hn, Nat.sub_mul]

/-- C1: on every callback invocation with requested quantum Q, the output is
the first `n = min(Q, readAvailable())` buffered frames followed by
`(Q - n) * frameSize` silence bytes, where the silence byte is 0x80 for
unsigned 8-bit and 0x00 for every other format; when `readAvailable() = 0`
the whole output is the silence pattern. -/
theorem c1_callback_output (fmt : SampleFormat) (rb : RB) (Q : Nat) :
    (streamCallback ⟨rb, silenceByteOf fmt⟩ Q).output =
      ((bufferedFrames rb).take (min Q (readAvailable rb))).flatten ++
        List.replicate ((Q - min Q (readAvailable rb)) * rb.frameSize)
          (if fmt = SampleFormat.u8 then 128 else 0) ∧
    (readAvailable rb = 0 →
      (streamCallback ⟨rb, silenceByteOf fmt⟩ Q).output =
        List.replicate (Q * rb.frameSize) (if fmt = SampleFormat.u8 then 128 else 0)) := by
  have h := (streamCallback_output ⟨rb, silenceByteOf fmt⟩ Q).1
  have hsil : silenceByteOf fmt = if fmt = SampleFormat.u8 then 128 else 0 := rfl
  constructor
  · rw [h, hsil]
  · intro h0
    rw [h, hsil, h0]
    simp [bufferedFrames, h0]

/-- Example ring-buffer state: empty buffer of capacity 2, one-byte frames. -/
def rbEx : RB :=
  { capacity := 2, frameSize := 1, storage := fun _ => [], writeCursor := 0, readCursor := 0 }

theorem c1_callback_output_witness :
    readAvailable rbEx = 0 ∧
    (streamCallback ⟨rbEx, silenceByteOf SampleFormat.u8⟩ 3).output = List.replicate 3 128 := by
  have h0 : readAvailable rbEx = 0 := rfl
  refine ⟨h0, ?_⟩
  have h := (c1_callback_output SampleFormat.u8 rbEx 3).2 h0
  simpa [rbEx] using h

/-- C7 counterexample: a callback invocation on an empty buffer with
quantum 4 is an underrun (0 frames available, 4 requested), yet the
callback emits no event and counts nothing. -/
theorem c7_counterexample :
    min 4 (readAvailable rbEx) < 4 ∧ (streamCallback ⟨rbEx, 128⟩ 4).evs = [] := by
  exact ⟨by decide, rfl⟩

/-- C7 amended: an underrun is masked with silence but is not made
observable as a counted event: the callback emits no event and keeps no
counter on any invocation, underrun or not.  The only starvation
observability in the program is the per-cycle warning of the drain loop. -/
theorem c7_no_underrun_event (cd : CallbackData) (Q : Nat) :
    (streamCallback cd Q).evs = [] :=
  (streamCallback_output cd Q).2

/-- One poll attempt as the inner drain loop observes it: the result of
`stdinReady()` (pipeplayer.cpp lines 80-89) combined, when ready, with the
result of the one-byte `read` (line 416): selErr is a negative `select`,
notReady a zero `select`, and the read either delivers a byte, returns
zero (EOF), or returns a negative error indicator. -/
inductive PollOutcome
  | selErr
  | notReady
  | readByte (b : Nat)
  | readEof
  | readErr
deriving DecidableEq

/-- Drain-loop state (pipeplayer.cpp lines 381-430): the ring buffer, the
one-frame staging buffer `pipeBuffer`, the staging index `byteIndex`, the
`stdinOpen` flag, the accumulated exit code `result`, the sampled clock
`nowT` and the last-read timestamp `thenT` (in units of one sleep
interval), and the last `Pa_IsStreamActive` return value stored in
`error`. -/
structure DrainState where
  rb : RB
  pipe : List Nat
  byteIndex : Nat
  stdinOpen : Bool
  result : Nat
  nowT : Nat
  thenT : Nat
  lastActive : Int

/-- Result of one iteration of the inner staging loop. -/
structure InnerRes where
  st : DrainState
  canGet : Bool
  fa : Nat
  evs : List Ev

/-- One execution of the `switch (stdinReady())` body in the inner drain
loop (pipeplayer.cpp lines 406-425).  Note the source increments
`byteIndex` on every read attempt (`&pipeBuffer[byteIndex++]`) whether or
not the read delivered a byte, pushes the staging buffer whenever
`byteIndex` reaches `frameSize`, and executes `then = now` on every
default branch; `stdinOpen` becomes the truth of `read(...) > 0`. -/
def innerIter (fs : Nat) (o : PollOutcome) (st : DrainState) (canGet : Bool) (fa : Nat) :
    InnerRes :=
  match o with
  | .selErr => ⟨{ st with result := 1 }, canGet, fa, [Ev.selectErrorMsg]⟩
  | .notReady => ⟨st, false, fa, [Ev.cantGetBytes]⟩
  | .readByte b =>
    let pipe1 := st.pipe.set st.byteIndex b
    if st.byteIndex + 1 = fs then
      ⟨{ st with
          pipe := pipe1
          byteIndex := 0
          stdinOpen := true
          rb := ringWrite1 st.rb pipe1
          thenT := st.nowT }, canGet, fa - 1, []⟩
    else
      ⟨{ st with
          pipe := pipe1
          byteIndex := st.byteIndex + 1
          stdinOpen := true
          thenT := st.nowT }, canGet, fa, []⟩
  | .readEof =>
    if st.byteIndex + 1 = fs then
      ⟨{ st with
          byteIndex := 0
          stdinOpen := false
          rb := ringWrite1 st.rb st.pipe
          thenT := st.nowT }, canGet, fa - 1, []⟩
    else
      ⟨{ st with byteIndex := st.byteIndex + 1, stdinOpen := false, thenT := st.nowT },
        canGet, fa, []⟩
  | .readErr =>
    if st.byteIndex + 1 = fs then
      ⟨{ st with
          byteIndex := 0
          stdinOpen := false
          rb := ringWrite1 st.rb st.pipe
          thenT := st.nowT }, canGet, fa - 1, []⟩
    else
      ⟨{ st with byteIndex := st.byteIndex + 1, stdinOpen := false, thenT := st.nowT },
        canGet, fa, []⟩

/-- Result of the inner staging loop. -/
structure LoopRes where
  st : DrainState
  fa : Nat
  rest : List PollOutcome
  evs : List Ev

/-- The inner staging loop (pipeplayer.cpp lines 404-426):
`while (canGetByte && framesAvailable > 0 && byteIndex < frameSize)`; each
iteration consumes exactly one poll outcome (one `stdinReady()` call).  An
exhausted trace ends the modelled observation window.  Note the condition
does not test `stdinOpen`. -/
def innerLoop (fs : Nat) : DrainState → Bool → Nat → List PollOutcome → LoopRes
  | st, _, fa, [] => ⟨st, fa, [], []⟩
  | st, canGet, fa, o :: rest =>
    if canGet ∧ 0 < fa ∧ st.byteIndex < fs then
      let r := innerIter fs o st canGet fa
      let l := innerLoop fs r.st r.canGet r.fa rest
      ⟨l.st, l.fa, l.rest, r.evs ++ l.evs⟩
    else ⟨st, fa, o :: rest, []⟩

/-- Result of one full drain-loop cycle. -/
structure CycleRes where
  st : DrainState
  rest : List PollOutcome
  evs : List Ev

/-- One drain-loop cycle body (pipeplayer.cpp lines 398-429): sample
`writeAvailable` into `framesAvailable`, warn when it equals the full
capacity (buffer completely empty), run the inner staging loop with
`canGetByte = true`, then sleep one interval and resample the clock
(`nowT` advances by one unit). -/
def drainCycle (fs : Nat) (st : DrainState) (src : List PollOutcome) : CycleRes :=
  let fa := writeAvailable st.rb
  let warnEvs := if fa = st.rb.capacity then [Ev.starved] else []
  let l := innerLoop fs st true fa src
  ⟨{ l.st with nowT := l.st.nowT + 1 }, l.rest, warnEvs ++ l.evs⟩

/-- Specification-side variant of `drainCycle` with the starvation warning
omitted, used to express that the warning is informational only. -/
def drainCycleNoWarn (fs : Nat) (st : DrainState) (src : List PollOutcome) : CycleRes :=
  let l := innerLoop fs st true (writeAvailable st.rb) src
  ⟨{ l.st with nowT := l.st.nowT + 1 }, l.rest, l.evs⟩

/-- The loop-condition comparison `(now - then) < timeout`
(pipeplayer.cpp line 396); `none` models the default infinite timeout. -/
def ltTimeout (d : Nat) : Option Nat → Bool
  | none => true
  | some t => d < t

/-- Result of running the outer drain loop. -/
structure RunRes where
  st : DrainState
  rest : List PollOutcome
  evs : List Ev
  exited : Bool

/-- The outer drain loop (pipeplayer.cpp lines 394-430):
`while (stdinOpen && (now - then) < timeout && (error = Pa_IsStreamActive(stream)) == 1)`.
`active` gives the per-cycle `Pa_IsStreamActive` return value; mirroring
the short-circuit in the source it is consulted (and stored into
`lastActive`) only when the first two conjuncts hold.  `fuel` bounds the
number of cycles observed; `exited` records that the loop left through its
own condition rather than by exhausting the fuel. -/
def outerLoop (fs : Nat) (T : Option Nat) (active : Nat → Int) :
    Nat → Nat → DrainState → List PollOutcome → RunRes
  | 0, _, st, src => ⟨st, src, [], false⟩
  | fuel + 1, cyc, st, src =>
    if st.stdinOpen ∧ ltTimeout (st.nowT - st.thenT) T then
      let st1 := { st with lastActive := active cyc }
      if st1.lastActive = 1 then
        let c := drainCycle fs st1 src
        let r := outerLoop fs T active fuel (cyc + 1) c.st c.rest
        ⟨r.st, r.rest, c.evs ++ r.evs, r.exited⟩
      else ⟨st1, src, [], true⟩
    else ⟨st, src, [], true⟩

/-- Result of the termination-classification block. -/
structure ClassifyRes where
  evs : List Ev
  result : Nat

/-- Termination reporting after the drain loop (pipeplayer.cpp
lines 432-444), exactly as written in the source: the first branch tests
`stdinOpen && (now - then) < timeout`, the second `!stdinOpen`, and a
negative stored `error` adds the fatal stream-stopped report and sets the
exit code to 1. -/
def classify (T : Option Nat) (st : DrainState) : ClassifyRes :=
  let evs :=
    if st.stdinOpen ∧ ltTimeout (st.nowT - st.thenT) T then [Ev.timedOutMsg]
    else if st.stdinOpen = false then [Ev.pipeClosedMsg]
    else []
  if st.lastActive < 0 then ⟨evs ++ [Ev.streamStoppedMsg], 1⟩ else ⟨evs, st.result⟩

/-- Drain-loop state at loop entry after a successful startup
(pipeplayer.cpp lines 283-395): empty ring buffer of the given capacity,
staging buffer with indeterminate initial contents `pipe0` (it is
malloc-allocated and never cleared), `byteIndex = 0`, `stdinOpen = true`,
exit code 0, both clocks at 0, stored `error = paNoError`. -/
def mkInit (fs cap : Nat) (pipe0 : List Nat) : DrainState :=
  { rb := { capacity := cap
            frameSize := fs
            storage := fun _ => []
            writeCursor := 0
            readCursor := 0 }
    pipe := pipe0
    byteIndex := 0
    stdinOpen := true
    result := 0
    nowT := 0
    thenT := 0
    lastActive := 0 }

/-- Number of data bytes a poll trace delivers (count of `readByte`). -/
def deliveredBytes : List PollOutcome → Nat
  | [] => 0
  | PollOutcome.readByte _ :: rest => deliveredBytes rest + 1
  | _ :: rest => deliveredBytes rest

/-- EOF scenario input: frame size 1, ring capacity 2, a source that
delivers the single frame byte 9 and then closes (every later poll reports
the descriptor readable and the read returns zero bytes, as `select` and
`read` behave at EOF). -/
def c2trace : List PollOutcome :=
  [PollOutcome.readByte 9, PollOutcome.readEof, PollOutcome.readEof, PollOutcome.readEof]

/-- The drain loop run on the EOF scenario. -/
def c2run : RunRes := outerLoop 1 none (fun _ => 1) 4 0 (mkInit 1 2 [0]) c2trace

/-- C2 (code bug): on a source delivering exactly one whole frame and then
closing, the loop does terminate and is classified as EOF with exit code 0
and the delivered frame is recoverable first, but the zero-length read
does not stop the inner loop: `byteIndex` keeps advancing and a second,
stale copy of the staging buffer is pushed before the outer loop exits, so
the ring holds 2 frames though only 1 was delivered. -/
theorem c2_eof_extra_frames :
    deliveredBytes c2trace = 1 ∧
    c2run.exited = true ∧
    c2run.st.stdinOpen = false ∧
    readAvailable c2run.st.rb = 2 ∧
    bufferedFrames c2run.st.rb = [[9], [9]] ∧
    (classify none c2run.st).evs = [Ev.pipeClosedMsg] ∧
    (classify none c2run.st).result = 0 := by
  decide

/-- Timeout scenario input: one byte then silence. -/
def c3trace : List PollOutcome :=
  [PollOutcome.readByte 5, PollOutcome.notReady, PollOutcome.notReady, PollOutcome.notReady]

/-- The drain loop run on the timeout scenario with a 2-interval timeout
and a stream that stays active. -/
def c3runA : RunRes := outerLoop 1 (some 2) (fun _ => 1) 6 0 (mkInit 1 2 [0]) c3trace

/-- The same input but with a stream that goes inactive after the first
cycle, before any timeout. -/
def c3runB : RunRes :=
  outerLoop 1 (some 2) (fun c => if c = 0 then 1 else 0) 6 0 (mkInit 1 2 [0]) c3trace

/-- C3 (code bug): with a finite timeout and a source that delivers one
byte then nothing, the loop does terminate at the first condition check
after the timeout elapses (within one poll interval), but the
classification on line 432 reads `(now - then) < timeout`, so the actual
timeout termination prints nothing at all, while a stream-inactive exit
with stdin still open and no timeout wrongly prints the "timed out"
message. -/
theorem c3_timeout_not_reported :
    c3runA.exited = true ∧
    c3runA.st.stdinOpen = true ∧
    ltTimeout (c3runA.st.nowT - c3runA.st.thenT) (some 2) = false ∧
    (classify (some 2) c3runA.st).evs = [] ∧
    (classify (some 2) c3runA.st).result = 0 ∧
    c3runB.exited = true ∧
    c3runB.st.stdinOpen = true ∧
    c3runB.st.lastActive = 0 ∧
    ltTimeout (c3runB.st.nowT - c3runB.st.thenT) (some 2) = true ∧
    (classify (some 2) c3runB.st).evs = [Ev.timedOutMsg] := by
  decide

/-- Read-error scenario input: the very first read returns a negative
error indicator, and keeps doing so. -/
def c4trace : List PollOutcome :=
  [PollOutcome.readErr, PollOutcome.readErr, PollOutcome.readErr]

/-- The drain loop run on the read-error scenario. -/
def c4run : RunRes := outerLoop 1 none (fun _ => 1) 4 0 (mkInit 1 2 [0]) c4trace

/-- C4 counterexample: a source whose reads fail with a negative indicator
does not produce a fatal failure distinct from EOF: the run terminates
classified as "input pipe closed" with exit status 0. -/
theorem c4_counterexample :
    c4run.exited = true ∧
    c4run.st.stdinOpen = false ∧
    (classify none c4run.st).evs = [Ev.pipeClosedMsg] ∧
    (classify none c4run.st).result = 0 := by
  decide

/-- C4 amended: a negative return from `read` is handled identically to a
zero-length read (EOF): the test is `read(...) > 0`, so the source is
merely marked closed with the exit code unchanged; the outer loop then
exits at its next condition check and termination is classified as
"input pipe closed" with the exit status left at its prior value (zero
when the stream reported no error).  Only a failing readiness poll
(`select` returning -1) sets the fatal result, and even that does not
terminate the loop by itself. -/
theorem c4_read_error_as_eof (fs : Nat) (st : DrainState) (canGet : Bool) (fa : Nat)
    (T : Option Nat) (active : Nat → Int) (fuel cyc : Nat) (src : List PollOutcome) :
    ((innerIter fs PollOutcome.readErr st canGet fa).st.stdinOpen = false ∧
      (innerIter fs PollOutcome.readErr st canGet fa).st.result = st.result ∧
      innerIter fs PollOutcome.readErr st canGet fa =
        innerIter fs PollOutcome.readEof st canGet fa) ∧
    (st.stdinOpen = false →
      outerLoop fs T active (fuel + 1) cyc st src = ⟨st, src, [], true⟩) ∧
    (st.stdinOpen = false → ¬ st.lastActive < 0 →
      classify T st = ⟨[Ev.pipeClosedMsg], st.result⟩) ∧
    (innerIter fs PollOutcome.selErr st canGet fa).st.result = 1 := by
  refine ⟨⟨?_, ?_, rfl⟩, ?_, ?_, rfl⟩
  · by_cases hbi : st.byteIndex + 1 = fs <;> simp [innerIter, hbi]
  · by_cases hbi : st.byteIndex + 1 = fs <;> simp [innerIter, hbi]
  · intro hopen
    rw [outerLoop]
    simp [hopen]
  · intro hopen hact
    simp only [classify, hopen]
    simp [hact]

theorem c4_read_error_as_eof_witness :
    (innerIter 1 PollOutcome.readErr (mkInit 1 2 [0]) true 2).st.stdinOpen = false ∧
    (classify none (innerIter 1 PollOutcome.readErr (mkInit 1 2 [0]) true 2).st).evs =
      [Ev.pipeClosedMsg] := by
  have h := c4_read_error_as_eof 1 (mkInit 1 2 [0]) true 2 none (fun _ => 1) 0 0 []
  have h2 := c4_read_error_as_eof 1
    (innerIter 1 PollOutcome.readErr (mkInit 1 2 [0]) true 2).st true 2 none (fun _ => 1) 0 0 []
  refine ⟨h.1.1, ?_⟩
  rw [h2.2.2.1 h.1.1 (by decide)]

/-- Mid-frame EOF scenario input: frame size 2, one data byte then the
source closes. -/
def c6trace : List PollOutcome :=
  [PollOutcome.readByte 7, PollOutcome.readEof, PollOutcome.readEof, PollOutcome.readEof]

/-- The drain loop run on the mid-frame EOF scenario (frame size 2, ring
capacity 2, staging buffer initially [0, 0]). -/
def c6run : RunRes := outerLoop 2 none (fun _ => 1) 4 0 (mkInit 2 2 [0, 0]) c6trace

/-- C6 (code bug): pushes do happen only in whole-frame units, but a frame
is not written only when `frameSize` bytes have been staged: `byteIndex`
advances even on reads that deliver nothing, so when the source closes
mid-frame the half-staged frame is completed with stale staging-buffer
bytes and pushed — here the source delivers a single byte (less than one
frame) yet the consumer sees two full frames [7, 0]. -/
theorem c6_stale_frame_visible :
    deliveredBytes c6trace = 1 ∧
    deliveredBytes c6trace < 2 ∧
    c6run.exited = true ∧
    c6run.st.stdinOpen = false ∧
    readAvailable c6run.st.rb = 2 ∧
    bufferedFrames c6run.st.rb = [[7, 0], [7, 0]] := by
  decide

theorem starved_not_mem_innerIter (fs : Nat) (o : PollOutcome) (st : DrainState)
    (canGet : Bool) (fa : Nat) : Ev.starved ∉ (innerIter fs o st canGet fa).evs := by
  cases o <;> simp only [innerIter] <;> first
    | simp
    | (split <;> simp)

theorem starved_not_mem_innerLoop (fs : Nat) :
    ∀ (src : List PollOutcome) (st : DrainState) (canGet : Bool) (fa : Nat),
      Ev.starved ∉ (innerLoop fs st canGet fa src).evs := by
  intro src
  induction src with
  | nil =>
    intro st canGet fa
    simp [innerLoop]
  | cons o rest ih =>
    intro st canGet fa
    rw [innerLoop]
    split
    · intro hmem
      simp only [List.mem_append] at hmem
      rcases hmem with h | h
      · exact starved_not_mem_innerIter fs o st canGet fa h
      · exact ih _ _ _ h
    · simp

/-- C8: at the start of every drain-loop cycle the "ring buffer starved"
warning is emitted if and only if `writeAvailable()` equals the full
capacity (buffer completely empty), and the warning is informational only:
a cycle with the warning suppressed produces exactly the same state and
remaining trace, so it affects neither loop continuation, nor `result`,
nor the exit status. -/
theorem c8_starved_warning_iff (fs : Nat) (st : DrainState) (src : List PollOutcome) :
    (Ev.starved ∈ (drainCycle fs st src).evs ↔ writeAvailable st.rb = st.rb.capacity) ∧
    (drainCycle fs st src).st = (drainCycleNoWarn fs st src).st ∧
    (drainCycle fs st src).rest = (drainCycleNoWarn fs st src).rest := by
  refine ⟨⟨?_, ?_⟩, rfl, rfl⟩
  · intro hmem
    simp only [drainCycle, List.mem_append] at hmem
    rcases hmem with h | h
    · by_cases hfa : writeAvailable st.rb = st.rb.capacity
      · exact hfa
      · simp [hfa] at h
    · exact absurd h (starved_not_mem_innerLoop fs src st true (writeAvailable st.rb))
  · intro hfa
    simp [drainCycle, hfa]

theorem readAvailable_ringWrite1 (rb : RB) (f : List Nat)
    (hwa : 0 < writeAvailable rb) (hrc : rb.readCursor ≤ rb.writeCursor) :
    readAvailable (ringWrite1 rb f) = readAvailable rb + 1 := by
  rw [ringWrite1, if_pos hwa]
  simp only [readAvailable]
  omega

/-- Whether a poll outcome reaches the `default` branch of the
`stdinReady()` switch, i.e. performs a `read` attempt (pipeplayer.cpp
lines 415-424). -/
def isReadAttempt : PollOutcome → Bool
  | PollOutcome.readByte _ => true
  | PollOutcome.readEof => true
  | PollOutcome.readErr => true
  | _ => false

/-- C10: throughout the drain loop, `byteIndex` satisfies
`0 ≤ byteIndex < frameSize` at every evaluation of the inner loop
condition: each read attempt increments it by exactly one, it is reset to
0 exactly when it reaches `frameSize` — at which point exactly one frame
is written to the ring buffer (its occupancy grows by one, given ring
space and the cursor invariant) and otherwise no frame is written — other
outcomes leave it unchanged, and the inner loop as a whole preserves the
bound. -/
theorem c10_byteIndex_invariant (fs : Nat) (hfs : 0 < fs) :
    (∀ (o : PollOutcome) (st : DrainState) (canGet : Bool) (fa : Nat),
      st.byteIndex < fs →
        (innerIter fs o st canGet fa).st.byteIndex < fs ∧
        (isReadAttempt o = true →
          (innerIter fs o st canGet fa).st.byteIndex =
            (if st.byteIndex + 1 = fs then 0 else st.byteIndex + 1)) ∧
        (isReadAttempt o = false →
          (innerIter fs o st canGet fa).st.byteIndex = st.byteIndex) ∧
        (isReadAttempt o = true → st.byteIndex + 1 = fs → 0 < writeAvailable st.rb →
          st.rb.readCursor ≤ st.rb.writeCursor →
          readAvailable (innerIter fs o st canGet fa).st.rb = readAvailable st.rb + 1) ∧
        (isReadAttempt o = true → st.byteIndex + 1 ≠ fs →
          readAvailable (innerIter fs o st canGet fa).st.rb = readAvailable st.rb)) ∧
    (∀ (src : List PollOutcome) (st : DrainState) (canGet : Bool) (fa : Nat),
      st.byteIndex < fs → (innerLoop fs st canGet fa src).st.byteIndex < fs) := by
  have hstep : ∀ (o : PollOutcome) (st : DrainState) (canGet : Bool) (fa : Nat),
      st.byteIndex < fs → (innerIter fs o st canGet fa).st.byteIndex < fs := by
    intro o st canGet fa hbi
    cases o with
    | selErr => simpa [innerIter] using hbi
    | notReady => simpa [innerIter] using hbi
    | readByte b => by_cases hbi2 : st.byteIndex + 1 = fs <;> simp [innerIter, hbi2] <;> omega
    | readEof => by_cases hbi2 : st.byteIndex + 1 = fs <;> simp [innerIter, hbi2] <;> omega
    | readErr => by_cases hbi2 : st.byteIndex + 1 = fs <;> simp [innerIter, hbi2] <;> omega
  refine ⟨?_, ?_⟩
  · intro o st canGet fa hbi
    refine ⟨hstep o st canGet fa hbi, ?_, ?_, ?_, ?_⟩
    · intro hro
      cases o with
      | selErr => simp [isReadAttempt] at hro
      | notReady => simp [isReadAttempt] at hro
      | readByte b => by_cases hbi2 : st.byteIndex + 1 = fs <;> simp [innerIter, hbi2]
      | readEof => by_cases hbi2 : st.byteIndex + 1 = fs <;> simp [innerIter, hbi2]
      | readErr => by_cases hbi2 : st.byteIndex + 1 = fs <;> simp [innerIter, hbi2]
    · intro hro
      cases o with
      | selErr => simp [innerIter]
      | notReady => simp [innerIter]
      | readByte b => simp [isReadAttempt] at hro
      | readEof => simp [isReadAttempt] at hro
      | readErr => simp [isReadAttempt] at hro
    · intro hro hbi2 hwa hrc
      cases o with
      | selErr => simp [isReadAttempt] at hro
      | notReady => simp [isReadAttempt] at hro
      | readByte b =>
        simp only [innerIter, if_pos hbi2]
        exact readAvailable_ringWrite1 st.rb _ hwa hrc
      | readEof =>
        simp only [innerIter, if_pos hbi2]
        exact readAvailable_ringWrite1 st.rb _ hwa hrc
      | readErr =>
        simp only [innerIter, if_pos hbi2]
        exact readAvailable_ringWrite1 st.rb _ hwa hrc
    · intro hro hbi2
      cases o with
      | selErr => simp [isReadAttempt] at hro
      | notReady => simp [isReadAttempt] at hro
      | readByte b => simp [innerIter, hbi2]
      | readEof => simp [innerIter, hbi2]
      | readErr => simp [innerIter, hbi2]
  · intro src
    induction src with
    | nil =>
      intro st canGet fa hbi
      simpa [innerLoop] using hbi
    | cons o rest ih =>
      intro st canGet fa hbi
      rw [innerLoop]
      split
      · exact ih _ _ _ (hstep o st canGet fa hbi)
      · simpa using hbi

theorem c10_witness :
    0 < 1 ∧ (innerLoop 1 (mkInit 1 2 [0]) true 2 [PollOutcome.readByte 3]).st.byteIndex < 1 :=
  ⟨Nat.one_pos,
    (c10_byteIndex_invariant 1 Nat.one_pos).2 [PollOutcome.readByte 3] (mkInit 1 2 [0]) true 2
      (by decide)⟩
